import Mathlib

/-!
Verification of the movie-night decision engine (`src/App.tsx`).

The engine's pure core is embedded shallowly:
* `calculateInstantRunoffWinner` — the instant-runoff tally.  The JS `while`
  loop is modelled by the fuel-indexed `runoffAux`; the top-level function
  supplies fuel equal to the number of candidates, and a theorem shows any
  larger fuel gives the same answer (the loop terminates within that bound).
  JS `Map` insertion-order semantics are modelled by the association list
  operations `mapSet`/`mapGet`; the ballot store `votesBySubmission` (a JS
  record keyed by submission id, later keys overwriting earlier ones) is
  modelled as a function from ids to vote lists.  The in-place mutation of
  `vote.rank` is modelled by threading the store through the loop, so the
  final store is the post-call state of the ballots the caller handed in.
  The JS comparison `voteCount > totalVotes / 2` (real division) is encoded
  as `totalVotes < 2 * voteCount`, which is equivalent over integers.
  The JS truthiness guard `if (losingSubmissionId)` is `e.1 ≠ 0`.
* `determineCurrentPhase` — the day-of-week phase mapping.
* `handleSubmitMovie` — the submission quota check (the storage insert is
  modelled as appending a row whose store-assigned key is a parameter).
* `handleSubmitVotes` — ballot replacement (delete-then-insert is modelled
  as filter-then-append on the votes table).
-/

/-- One row of the `votes` table, restricted to the fields the engine reads
or writes (`vote_id` and `created_at` are never consulted). -/
structure VoteRow where
  submission_id : Int
  user_id : Int
  rank : Int
deriving DecidableEq, Repr

/-- One element of the `submissions` list handed to the engine
(`SubmissionWithDetails`), restricted to the fields the engine consults. -/
structure Submission where
  submission_id : Int
  night_id : Int
  user_id : Int
  movie_id : Int
  votes : List VoteRow
deriving DecidableEq, Repr

/-- The ballot store built by the `reduce` at the top of
`calculateInstantRunoffWinner`: a record keyed by submission id whose value
is that submission's vote list, later duplicates overwriting earlier ones. -/
def votesBySubmission (submissions : List Submission) : Int → List VoteRow :=
  submissions.foldl
    (fun acc s => fun id => if id = s.submission_id then s.votes else acc id)
    (fun _ => [])

/-- JS `Map.set`: overwrite in place if the key is present, else append. -/
def mapSet (m : List (Int × Nat)) (k : Int) (v : Nat) : List (Int × Nat) :=
  if m.any (fun e => e.1 == k) then
    m.map (fun e => if e.1 == k then (k, v) else e)
  else m ++ [(k, v)]

/-- JS `Map.get(k) || 0`: the value stored at `k`, defaulting to `0`. -/
def mapGet (m : List (Int × Nat)) (k : Int) : Nat :=
  match m.find? (fun e => e.1 == k) with
  | some e => e.2
  | none => 0

/-- `votesBySubmission[id].filter(vote => vote.rank === 1).length`. -/
def countFirstChoice (store : Int → List VoteRow) (id : Int) : Nat :=
  ((store id).filter (fun v => v.rank == 1)).length

/-- The `voteCounts` map: for each remaining submission, in order, set its
first-choice count. -/
def voteCountsList (store : Int → List VoteRow) (remaining : List Submission) :
    List (Int × Nat) :=
  remaining.foldl
    (fun m s => mapSet m s.submission_id (countFirstChoice store s.submission_id))
    []

/-- `Array.from(voteCounts.values()).reduce((sum, count) => sum + count, 0)`. -/
def totalVotes (counts : List (Int × Nat)) : Nat :=
  (counts.map Prod.snd).foldl (fun a b => a + b) 0

/-- The majority test `voteCount > totalVotes / 2` (JS real division),
encoded over naturals as `totalVotes < 2 * voteCount`. -/
def hasMajority (counts : List (Int × Nat)) (total : Nat) (s : Submission) : Bool :=
  decide (total < 2 * mapGet counts s.submission_id)

/-- The winner scan: the first remaining submission, in order, whose
first-choice count strictly exceeds half the total. -/
def scanWinner (store : Int → List VoteRow) (remaining : List Submission) :
    Option Submission :=
  let counts := voteCountsList store remaining
  remaining.find? (hasMajority counts (totalVotes counts))

/-- `Math.min(...)` over a list of counts (the empty case is unreachable:
inside the loop the counts map is never empty). -/
def listMin : List Nat → Nat
  | [] => 0
  | h :: t => t.foldl min h

/-- The elimination pick: the first `voteCounts` entry, in map insertion
order, whose count equals the minimum count. -/
def roundLoser (store : Int → List VoteRow) (remaining : List Submission) :
    Option (Int × Nat) :=
  let counts := voteCountsList store remaining
  counts.find? (fun e => e.2 == listMin (counts.map Prod.snd))

/-- The rank-collapse pass: every vote in the store whose rank strictly
exceeds the threshold `t` is decremented by one. -/
def rerank (store : Int → List VoteRow) (t : Nat) : Int → List VoteRow :=
  fun id =>
    (store id).map (fun v => if (t : Int) < v.rank then { v with rank := v.rank - 1 } else v)

/-- The ballot store after an elimination round that picked entry `e`:
the JS guard `if (losingSubmissionId)` skips the collapse when the losing
id is `0` (falsy); the threshold is `voteCounts.get(losingSubmissionId)!`. -/
def nextStore (store : Int → List VoteRow) (remaining : List Submission)
    (e : Int × Nat) : Int → List VoteRow :=
  if e.1 ≠ 0 then rerank store (mapGet (voteCountsList store remaining) e.1) else store

/-- The `while (!winner && remainingSubmissions.length > 0)` loop, indexed
by fuel.  Each iteration either finds a winner, or removes the first
minimum-count submission and reranks the ballots.  The `roundLoser = none`
branch (unreachable: the minimum is attained) mirrors the JS behaviour of
an `undefined` losing id — nothing is removed and the loop continues. -/
def runoffAux :
    Nat → (Int → List VoteRow) → List Submission →
    Option Submission × ((Int → List VoteRow) × List Submission)
  | 0, store, remaining => (none, store, remaining)
  | fuel + 1, store, remaining =>
    if remaining.isEmpty then (none, store, remaining)
    else
      match scanWinner store remaining with
      | some w => (some w, store, remaining)
      | none =>
        match roundLoser store remaining with
        | none => runoffAux fuel store remaining
        | some e =>
          runoffAux fuel (nextStore store remaining e)
            (remaining.filter (fun s => decide (s.submission_id ≠ e.1)))

/-- `calculateInstantRunoffWinner`, returning also the final ballot store
(the post-call state of the mutated votes) and the final remaining list. -/
def calculateInstantRunoffWinnerFull (submissions : List Submission) :
    Option Submission × ((Int → List VoteRow) × List Submission) :=
  if submissions.isEmpty then (none, votesBySubmission submissions, [])
  else runoffAux submissions.length (votesBySubmission submissions) submissions

/-- `calculateInstantRunoffWinner` (src/App.tsx:442-492): the returned value
is `winner || remainingSubmissions[0] || null`. -/
def calculateInstantRunoffWinner (submissions : List Submission) : Option Submission :=
  match calculateInstantRunoffWinnerFull submissions with
  | (some w, _) => some w
  | (none, _, rem) => rem.head?

/-- The `voteCounts` map of the first round. -/
def firstRoundCounts (submissions : List Submission) : List (Int × Nat) :=
  voteCountsList (votesBySubmission submissions) submissions

/-- The first-round total of first-choice votes. -/
def firstRoundTotal (submissions : List Submission) : Nat :=
  totalVotes (firstRoundCounts submissions)

/-- The three phases of `type Phase`. -/
inductive Phase where
  | submission
  | voting
  | winner
deriving DecidableEq, Repr

/-- `determineCurrentPhase` (src/App.tsx:704-715) as a function of
`Date.getDay()` (0 = Sunday .. 6 = Saturday). -/
def determineCurrentPhase (dayOfWeek : Nat) : Phase :=
  if dayOfWeek = 4 then Phase.winner
  else if 2 ≤ dayOfWeek then Phase.voting
  else Phase.submission

/-- `MAX_SUBMISSIONS` (src/App.tsx:637). -/
def MAX_SUBMISSIONS : Nat := 2

/-- `handleSubmitMovie` (src/App.tsx:849-882) acting on the current night's
submission list: reject (`none`) when the user already owns
`MAX_SUBMISSIONS` submissions, otherwise insert a row for the chosen movie.
`newId` stands for the store-assigned `submission_id` of the inserted row. -/
def handleSubmitMovie (submissions : List Submission) (user_id : Int)
    (night_id : Int) (movie_id : Int) (newId : Int) : Option (List Submission) :=
  if MAX_SUBMISSIONS ≤ (submissions.filter (fun s => s.user_id == user_id)).length then
    none
  else
    some (submissions ++ [⟨newId, night_id, user_id, movie_id, []⟩])

/-- `handleSubmitVotes` (src/App.tsx:902-930) acting on the votes table:
delete the user's votes whose `submission_id` occurs in the submitted
ordering `userVotes`, then insert one vote per listed submission with
`rank = index + 1`. -/
def handleSubmitVotes (votes : List VoteRow) (user_id : Int)
    (userVotes : List Submission) : List VoteRow :=
  votes.filter
      (fun v =>
        !(v.user_id == user_id &&
          (userVotes.map (fun s => s.submission_id)).contains v.submission_id))
    ++ userVotes.enum.map (fun p => ⟨p.2.submission_id, user_id, (p.1 : Int) + 1⟩)

/-! ### Basic facts about the loop's building blocks -/

theorem runoffAux_nil (f : Nat) (store : Int → List VoteRow) :
    runoffAux f store [] = (none, store, []) := by
  cases f <;> rfl

theorem runoffAux_cons (fuel : Nat) (store : Int → List VoteRow)
    (x : Submission) (xs : List Submission) :
    runoffAux (fuel + 1) store (x :: xs) =
      match scanWinner store (x :: xs) with
      | some w => (some w, store, x :: xs)
      | none =>
        match roundLoser store (x :: xs) with
        | none => runoffAux fuel store (x :: xs)
        | some e =>
          runoffAux fuel (nextStore store (x :: xs) e)
            ((x :: xs).filter (fun s => decide (s.submission_id ≠ e.1))) := by
  rfl

theorem mapSet_ne_nil (m : List (Int × Nat)) (k : Int) (v : Nat) :
    mapSet m k v ≠ [] := by
  unfold mapSet
  split
  · intro h
    rcases m with _ | ⟨e, m⟩
    · simp at *
    · simp at h
  · simp

theorem mapSet_mem {m : List (Int × Nat)} {k : Int} {v : Nat} {e : Int × Nat}
    (h : e ∈ mapSet m k v) : e ∈ m ∨ e = (k, v) := by
  unfold mapSet at h
  split at h
  · rcases List.mem_map.1 h with ⟨a, ha, rfl⟩
    by_cases hk : (a.1 == k) = true
    · simp [hk]
    · simp [hk]
      exact Or.inl ha
  · rcases List.mem_append.1 h with h | h
    · exact Or.inl h
    · simp at h
      exact Or.inr h

theorem foldl_mapSet_ne_nil (store : Int → List VoteRow) :
    ∀ (l : List Submission) (acc : List (Int × Nat)), (acc ≠ [] ∨ l ≠ []) →
      l.foldl
        (fun m s => mapSet m s.submission_id (countFirstChoice store s.submission_id))
        acc ≠ [] := by
  intro l
  induction l with
  | nil =>
    intro acc h
    simpa using h.resolve_right (by simp)
  | cons x xs ih =>
    intro acc _
    exact ih _ (Or.inl (mapSet_ne_nil _ _ _))

theorem voteCountsList_ne_nil (store : Int → List VoteRow)
    {r : List Submission} (h : r ≠ []) : voteCountsList store r ≠ [] :=
  foldl_mapSet_ne_nil store r [] (Or.inr h)

theorem foldl_mapSet_mem (store : Int → List VoteRow) :
    ∀ (l : List Submission) (acc : List (Int × Nat)) (e : Int × Nat),
      e ∈ l.foldl
        (fun m s => mapSet m s.submission_id (countFirstChoice store s.submission_id))
        acc →
      e ∈ acc ∨ ∃ s ∈ l, e = (s.submission_id, countFirstChoice store s.submission_id) := by
  intro l
  induction l with
  | nil =>
    intro acc e h
    exact Or.inl h
  | cons x xs ih =>
    intro acc e h
    rcases ih _ e h with h' | ⟨s, hs, rfl⟩
    · rcases mapSet_mem h' with h'' | rfl
      · exact Or.inl h''
      · exact Or.inr ⟨x, by simp⟩
    · exact Or.inr ⟨s, by simp [hs]⟩

theorem voteCountsList_mem {store : Int → List VoteRow} {r : List Submission}
    {e : Int × Nat} (h : e ∈ voteCountsList store r) :
    ∃ s ∈ r, e = (s.submission_id, countFirstChoice store s.submission_id) := by
  rcases foldl_mapSet_mem store r [] e h with h' | h'
  · simp at h'
  · exact h'

theorem foldl_min_mem : ∀ (t : List Nat) (a : Nat), t.foldl min a ∈ a :: t := by
  intro t
  induction t with
  | nil => intro a; simp
  | cons b t ih =>
    intro a
    have h := ih (min a b)
    rw [List.foldl_cons]
    rcases List.mem_cons.1 h with h1 | h1
    · rcases min_choice a b with h' | h'
      · rw [h1, h']
        exact List.mem_cons_self a _
      · rw [h1, h']
        simp
    · simp [h1]

theorem listMin_mem {l : List Nat} (h : l ≠ []) : listMin l ∈ l := by
  rcases l with _ | ⟨a, t⟩
  · exact absurd rfl h
  · exact foldl_min_mem t a

theorem roundLoser_isSome (store : Int → List VoteRow) {r : List Submission}
    (h : r ≠ []) : ∃ e, roundLoser store r = some e := by
  have hc : voteCountsList store r ≠ [] := voteCountsList_ne_nil store h
  have hv : (voteCountsList store r).map Prod.snd ≠ [] := by
    simpa using hc
  have hm := listMin_mem hv
  rcases List.mem_map.1 hm with ⟨e, he, hes⟩
  rcases ho : roundLoser store r with _ | e'
  · exfalso
    unfold roundLoser at ho
    have := List.find?_eq_none.1 ho e he
    simp [hes] at this
  · exact ⟨e', rfl⟩

theorem roundLoser_shape {store : Int → List VoteRow} {r : List Submission}
    {e : Int × Nat} (h : roundLoser store r = some e) :
    ∃ s ∈ r, e = (s.submission_id, countFirstChoice store s.submission_id) :=
  voteCountsList_mem (List.mem_of_find?_eq_some h)

theorem mapGet_of_mem_unique_value {store : Int → List VoteRow} {r : List Submission}
    {e : Int × Nat} (h : e ∈ voteCountsList store r) :
    mapGet (voteCountsList store r) e.1 = countFirstChoice store e.1 := by
  rcases hf : (voteCountsList store r).find? (fun x => x.1 == e.1) with _ | f
  · exfalso
    have := List.find?_eq_none.1 hf e h
    simp at this
  · have hfm := List.mem_of_find?_eq_some hf
    have hfp := List.find?_some hf
    rcases voteCountsList_mem hfm with ⟨s, _, rfl⟩
    simp only [beq_iff_eq] at hfp
    simp [mapGet, hf, hfp]


theorem filter_ne_length_lt :
    ∀ (r : List Submission) (a : Int), a ∈ r.map (fun s => s.submission_id) →
      (r.filter (fun s => decide (s.submission_id ≠ a))).length < r.length := by
  intro r
  induction r with
  | nil => intro a h; simp at h
  | cons x xs ih =>
    intro a h
    by_cases hx : x.submission_id = a
    · have heq : (List.filter (fun s => decide (s.submission_id ≠ a)) (x :: xs)).length =
          (List.filter (fun s => decide (s.submission_id ≠ a)) xs).length := by
        simp [List.filter_cons, hx]
      rw [heq]
      calc (List.filter (fun s => decide (s.submission_id ≠ a)) xs).length
          ≤ xs.length := List.length_filter_le _ _
        _ < (x :: xs).length := by simp
    · have ha : a ∈ xs.map (fun s => s.submission_id) := by
        rcases List.mem_map.1 h with ⟨s, hs, hsa⟩
        rcases List.mem_cons.1 hs with rfl | hs'
        · exact absurd hsa hx
        · exact List.mem_map.2 ⟨s, hs', hsa⟩
      have hih := ih a ha
      have heq : List.filter (fun s => decide (s.submission_id ≠ a)) (x :: xs) =
          x :: List.filter (fun s => decide (s.submission_id ≠ a)) xs := by
        simp [List.filter_cons, hx]
      rw [heq]
      simpa using hih

theorem roundLoser_progress {store : Int → List VoteRow} {r : List Submission}
    {e : Int × Nat} (h : roundLoser store r = some e) :
    (r.filter (fun s => decide (s.submission_id ≠ e.1))).length < r.length := by
  rcases roundLoser_shape h with ⟨s, hs, rfl⟩
  exact filter_ne_length_lt r _ (List.mem_map.2 ⟨s, hs, rfl⟩)

theorem runoffAux_fuel_irrel :
    ∀ (f₁ f₂ : Nat) (store : Int → List VoteRow) (r : List Submission),
      r.length ≤ f₁ → r.length ≤ f₂ →
      runoffAux f₁ store r = runoffAux f₂ store r := by
  intro f₁
  induction f₁ using Nat.strong_induction_on with
  | _ f₁ ih =>
    intro f₂ store r h1 h2
    rcases r with _ | ⟨x, xs⟩
    · rw [runoffAux_nil, runoffAux_nil]
    · rcases f₁ with _ | n
      · simp at h1
      · rcases f₂ with _ | m
        · simp at h2
        · rw [runoffAux_cons, runoffAux_cons]
          rcases hsw : scanWinner store (x :: xs) with _ | w
          · rcases roundLoser_isSome store (List.cons_ne_nil x xs) with ⟨e, he⟩
            rw [he]
            have hlt := roundLoser_progress he
            have hxl : (x :: xs).length = xs.length + 1 := by simp
            have e1 := ih n (Nat.lt_succ_self n)
              ((x :: xs).filter (fun s => decide (s.submission_id ≠ e.1))).length
              (nextStore store (x :: xs) e)
              ((x :: xs).filter (fun s => decide (s.submission_id ≠ e.1)))
              (by omega) (le_refl _)
            have e2 := ih
              ((x :: xs).filter (fun s => decide (s.submission_id ≠ e.1))).length
              (by omega) m
              (nextStore store (x :: xs) e)
              ((x :: xs).filter (fun s => decide (s.submission_id ≠ e.1)))
              (le_refl _) (by omega)
            exact e1.trans e2
          · rfl

theorem scanWinner_mem {store : Int → List VoteRow} {r : List Submission}
    {w : Submission} (h : scanWinner store r = some w) : w ∈ r :=
  List.mem_of_find?_eq_some (by simpa [scanWinner] using h)

theorem runoffAux_inv :
    ∀ (f : Nat) (store : Int → List VoteRow) (r : List Submission), r.length ≤ f →
      ((runoffAux f store r).1 = none → (runoffAux f store r).2.2 = [])
      ∧ (∀ s, (runoffAux f store r).1 = some s →
          s ∈ r ∧ s ∈ (runoffAux f store r).2.2) := by
  intro f
  induction f with
  | zero =>
    intro store r h
    have : r = [] := List.length_eq_zero.1 (Nat.le_zero.1 h)
    subst this
    rw [runoffAux_nil]
    exact ⟨fun _ => rfl, fun s hs => by simp at hs⟩
  | succ n ih =>
    intro store r h
    rcases r with _ | ⟨x, xs⟩
    · rw [runoffAux_nil]
      exact ⟨fun _ => rfl, fun s hs => by simp at hs⟩
    · rcases hsw : scanWinner store (x :: xs) with _ | w
      · rcases roundLoser_isSome store (List.cons_ne_nil x xs) with ⟨e, he⟩
        have hred : runoffAux (n + 1) store (x :: xs) =
            runoffAux n (nextStore store (x :: xs) e)
              ((x :: xs).filter (fun s => decide (s.submission_id ≠ e.1))) := by
          rw [runoffAux_cons, hsw, he]
        have hlt := roundLoser_progress he
        have hih := ih (nextStore store (x :: xs) e)
          ((x :: xs).filter (fun s => decide (s.submission_id ≠ e.1))) (by omega)
        rw [hred]
        refine ⟨hih.1, fun s hs => ?_⟩
        rcases hih.2 s hs with ⟨hmem, hrem⟩
        exact ⟨List.mem_of_mem_filter hmem, hrem⟩
      · have hred : runoffAux (n + 1) store (x :: xs) = (some w, store, x :: xs) := by
          rw [runoffAux_cons, hsw]
        rw [hred]
        refine ⟨fun hn => by simp at hn, fun s hs => ?_⟩
        have : w = s := by simpa using hs
        subst this
        exact ⟨scanWinner_mem hsw, scanWinner_mem hsw⟩

theorem mapSet_append {m : List (Int × Nat)} {k : Int} {v : Nat}
    (h : ∀ e ∈ m, e.1 ≠ k) : mapSet m k v = m ++ [(k, v)] := by
  unfold mapSet
  rw [if_neg]
  intro hc
  rcases List.any_eq_true.1 hc with ⟨e, he, hp⟩
  exact h e he (by simpa using hp)

theorem foldl_mapSet_eq_map (store : Int → List VoteRow) :
    ∀ (l : List Submission) (acc : List (Int × Nat)),
      (∀ e ∈ acc, e.1 ∉ l.map (fun s => s.submission_id)) →
      (l.map (fun s => s.submission_id)).Nodup →
      l.foldl
        (fun m s => mapSet m s.submission_id (countFirstChoice store s.submission_id))
        acc =
      acc ++ l.map (fun s => (s.submission_id, countFirstChoice store s.submission_id)) := by
  intro l
  induction l with
  | nil => intro acc _ _; simp
  | cons x xs ih =>
    intro acc hdisj hnd
    have hstep : mapSet acc x.submission_id (countFirstChoice store x.submission_id) =
        acc ++ [(x.submission_id, countFirstChoice store x.submission_id)] :=
      mapSet_append (fun e he hk => hdisj e he (by simp [hk]))
    have hnd' : (xs.map (fun s => s.submission_id)).Nodup := (List.nodup_cons.1 (by simpa using hnd)).2
    have hx : x.submission_id ∉ xs.map (fun s => s.submission_id) :=
      (List.nodup_cons.1 (by simpa using hnd)).1
    have hdisj' : ∀ e ∈ acc ++ [(x.submission_id, countFirstChoice store x.submission_id)],
        e.1 ∉ xs.map (fun s => s.submission_id) := by
      intro e he
      rcases List.mem_append.1 he with he' | he'
      · intro hc
        exact hdisj e he' (by simp [hc])
      · simp at he'
        rw [he']
        exact hx
    calc (x :: xs).foldl
          (fun m s => mapSet m s.submission_id (countFirstChoice store s.submission_id))
          acc
        = xs.foldl
            (fun m s => mapSet m s.submission_id (countFirstChoice store s.submission_id))
            (acc ++ [(x.submission_id, countFirstChoice store x.submission_id)]) := by
          rw [List.foldl_cons, hstep]
      _ = (acc ++ [(x.submission_id, countFirstChoice store x.submission_id)]) ++
            xs.map (fun s => (s.submission_id, countFirstChoice store s.submission_id)) :=
          ih _ hdisj' hnd'
      _ = acc ++ (x :: xs).map
            (fun s => (s.submission_id, countFirstChoice store s.submission_id)) := by
          simp

theorem voteCountsList_eq_map {store : Int → List VoteRow} {r : List Submission}
    (hnd : (r.map (fun s => s.submission_id)).Nodup) :
    voteCountsList store r =
      r.map (fun s => (s.submission_id, countFirstChoice store s.submission_id)) := by
  have := foldl_mapSet_eq_map store r [] (by simp) hnd
  simpa [voteCountsList] using this

theorem scanWinner_eq_firstRound (subs : List Submission) :
    scanWinner (votesBySubmission subs) subs =
      subs.find? (hasMajority (firstRoundCounts subs) (firstRoundTotal subs)) := rfl

theorem full_eq_of_majority {subs : List Submission}
    (h : ∃ s ∈ subs,
      hasMajority (firstRoundCounts subs) (firstRoundTotal subs) s = true) :
    calculateInstantRunoffWinnerFull subs =
      (subs.find? (hasMajority (firstRoundCounts subs) (firstRoundTotal subs)),
       votesBySubmission subs, subs) := by
  rcases subs with _ | ⟨x, xs⟩
  · rcases h with ⟨s, hs, _⟩
    simp at hs
  · rcases Option.isSome_iff_exists.1 (List.find?_isSome.2 h) with ⟨w, hw⟩
    have hsw : scanWinner (votesBySubmission (x :: xs)) (x :: xs) = some w :=
      (scanWinner_eq_firstRound (x :: xs)).symm ▸ hw
    have hfull : calculateInstantRunoffWinnerFull (x :: xs) =
        runoffAux (x :: xs).length (votesBySubmission (x :: xs)) (x :: xs) := by
      rw [calculateInstantRunoffWinnerFull, if_neg]
      simp
    rw [hfull, show (x :: xs).length = xs.length + 1 from rfl, runoffAux_cons, hsw, hw]

theorem calculate_eq_of_majority {subs : List Submission}
    (h : ∃ s ∈ subs,
      hasMajority (firstRoundCounts subs) (firstRoundTotal subs) s = true) :
    calculateInstantRunoffWinner subs =
      subs.find? (hasMajority (firstRoundCounts subs) (firstRoundTotal subs)) := by
  rcases Option.isSome_iff_exists.1 (List.find?_isSome.2 h) with ⟨w, hw⟩
  rw [calculateInstantRunoffWinner, full_eq_of_majority h, hw]

theorem roundLoser_eq_of_nodup {store : Int → List VoteRow} {r : List Submission}
    (hnd : (r.map (fun s => s.submission_id)).Nodup) :
    roundLoser store r =
      (r.find? (fun s => countFirstChoice store s.submission_id ==
          listMin (r.map (fun s => countFirstChoice store s.submission_id)))).map
        (fun s => (s.submission_id, countFirstChoice store s.submission_id)) := by
  show (voteCountsList store r).find?
      (fun e => e.2 == listMin ((voteCountsList store r).map Prod.snd)) = _
  rw [voteCountsList_eq_map hnd,
    List.find?_map (fun s => (s.submission_id, countFirstChoice store s.submission_id)) r,
    List.map_map]
  rfl

theorem filter_ne_length_nodup :
    ∀ (r : List Submission) (a : Int),
      (r.map (fun s => s.submission_id)).Nodup →
      a ∈ r.map (fun s => s.submission_id) →
      (r.filter (fun s => decide (s.submission_id ≠ a))).length + 1 = r.length := by
  intro r
  induction r with
  | nil => intro a _ h; simp at h
  | cons x xs ih =>
    intro a hnd hmem
    have hx : x.submission_id ∉ xs.map (fun s => s.submission_id) :=
      (List.nodup_cons.1 (by simpa using hnd)).1
    have hnd' : (xs.map (fun s => s.submission_id)).Nodup :=
      (List.nodup_cons.1 (by simpa using hnd)).2
    rw [List.map_cons] at hmem
    by_cases hax : a = x.submission_id
    · have hxs : xs.filter (fun s => decide (s.submission_id ≠ a)) = xs := by
        apply List.filter_eq_self.2
        intro s hs
        simp only [decide_eq_true_eq]
        intro hc
        exact hx (List.mem_map.2 ⟨s, hs, by rw [hc, hax]⟩)
      have hhead : List.filter (fun s => decide (s.submission_id ≠ a)) (x :: xs) =
          xs.filter (fun s => decide (s.submission_id ≠ a)) := by
        simp [List.filter_cons, hax]
      rw [hhead, hxs]
      simp
    · have ha : a ∈ xs.map (fun s => s.submission_id) := by
        rcases List.mem_cons.1 hmem with h1 | h1
        · exact absurd h1 hax
        · exact h1
      have hxa : x.submission_id ≠ a := fun hc => hx (hc ▸ ha)
      have hhead : List.filter (fun s => decide (s.submission_id ≠ a)) (x :: xs) =
          x :: xs.filter (fun s => decide (s.submission_id ≠ a)) := by
        simp [List.filter_cons, hxa]
      rw [hhead]
      have := ih a hnd' ha
      simp only [List.length_cons]
      omega

/-! ### Concrete inputs used by witnesses and counterexamples -/

/-- Two-candidate night where candidate 1 holds a strict first-round
majority (2 of 3 first-place votes). -/
def exMajority : List Submission :=
  [⟨1, 5, 1, 100, [⟨1, 1, 1⟩, ⟨1, 2, 1⟩]⟩,
   ⟨2, 5, 2, 200, [⟨2, 3, 1⟩]⟩]

/-- A single candidate carrying one first-place vote. -/
def exSingle : List Submission := [⟨1, 5, 1, 100, [⟨1, 1, 1⟩]⟩]

/-- Two candidates tied 1-1 on first-place votes; candidate 2 also carries a
rank-2 vote, so eliminating candidate 1 decrements that vote's rank. -/
def exElim : List Submission :=
  [⟨1, 5, 1, 100, [⟨1, 1, 1⟩]⟩,
   ⟨2, 5, 2, 200, [⟨2, 2, 1⟩, ⟨2, 3, 2⟩]⟩]

/-- Three candidates whose first one has submission id 0: it is eliminated
first (count 0), but the JS-falsy id makes the loop skip the re-rank pass. -/
def exZeroId : List Submission :=
  [⟨0, 5, 1, 100, []⟩,
   ⟨1, 5, 2, 200, [⟨1, 10, 1⟩]⟩,
   ⟨2, 5, 3, 300, [⟨2, 11, 1⟩]⟩]

/-- Three candidates with first-place counts 2, 2, 3 (total 7): no majority,
and candidates 1 and 2 tie at the minimum count. -/
def exTie : List Submission :=
  [⟨1, 5, 1, 100, [⟨1, 1, 1⟩, ⟨1, 2, 1⟩]⟩,
   ⟨2, 5, 2, 200, [⟨2, 3, 1⟩, ⟨2, 4, 1⟩]⟩,
   ⟨3, 5, 3, 300, [⟨3, 5, 1⟩, ⟨3, 6, 1⟩, ⟨3, 7, 1⟩]⟩]

/-- A night where candidate 1 has no votes and candidate 2 has one:
candidate 1 is the round loser. -/
def exLoser : List Submission :=
  [⟨1, 5, 1, 100, []⟩, ⟨2, 5, 2, 200, [⟨2, 1, 1⟩]⟩]

/-- A night in which user 7 already owns two submissions. -/
def exNightFull : List Submission := [⟨1, 5, 7, 100, []⟩, ⟨2, 5, 7, 101, []⟩]

/-- A submitted ranking listing only submission 1, while the votes table
also holds user 7's old vote for submission 2 of the same night. -/
def exListedOnly : List Submission := [⟨1, 5, 7, 100, []⟩]

/-! ### C9 — phase mapping -/

/-- C9: with no administrative override, the phase is a pure function of the
day of week: day 4 (Thursday) maps to `winner`, every day ≥ 2 other than 4
(Tuesday, Wednesday, Friday, Saturday) maps to `voting`, and days 0 and 1
(Sunday, Monday) map to `submission`. -/
theorem determineCurrentPhase_mapping :
    ∀ d : Nat,
      (d = 4 → determineCurrentPhase d = Phase.winner)
      ∧ (2 ≤ d → d ≠ 4 → determineCurrentPhase d = Phase.voting)
      ∧ ((d = 0 ∨ d = 1) → determineCurrentPhase d = Phase.submission) := by
  intro d
  refine ⟨fun h => by simp [determineCurrentPhase, h], fun h2 h4 => ?_, fun h01 => ?_⟩
  · simp [determineCurrentPhase, h4, h2]
  · rcases h01 with rfl | rfl <;> rfl

/-- Witness for C9 at Thursday (4), Friday (5) and Monday (1). -/
theorem determineCurrentPhase_mapping_witness :
    determineCurrentPhase 4 = Phase.winner
    ∧ determineCurrentPhase 5 = Phase.voting
    ∧ determineCurrentPhase 1 = Phase.submission :=
  ⟨(determineCurrentPhase_mapping 4).1 rfl,
   (determineCurrentPhase_mapping 5).2.1 (by decide) (by decide),
   (determineCurrentPhase_mapping 1).2.2 (Or.inr rfl)⟩

/-! ### C8 — submission quota -/

/-- C8: a user who already owns `MAX_SUBMISSIONS` (2) submissions in the
night is rejected (`none`) and nothing is inserted; a user below the quota
gets exactly one new row referencing the chosen movie id appended, raising
that user's submission count by one. -/
theorem handleSubmitMovie_quota :
    ∀ (subs : List Submission) (u night movie newId : Int),
      (MAX_SUBMISSIONS ≤ (subs.filter (fun s => s.user_id == u)).length →
        handleSubmitMovie subs u night movie newId = none)
      ∧ ((subs.filter (fun s => s.user_id == u)).length < MAX_SUBMISSIONS →
          handleSubmitMovie subs u night movie newId =
            some (subs ++ [⟨newId, night, u, movie, []⟩])
          ∧ ∀ t, handleSubmitMovie subs u night movie newId = some t →
              (t.filter (fun s => s.user_id == u)).length =
                (subs.filter (fun s => s.user_id == u)).length + 1) := by
  intro subs u night movie newId
  constructor
  · intro h
    simp [handleSubmitMovie, h]
  · intro h
    have hn : ¬ MAX_SUBMISSIONS ≤ (subs.filter (fun s => s.user_id == u)).length := by
      omega
    refine ⟨by simp [handleSubmitMovie, hn], fun t ht => ?_⟩
    have hteq : t = subs ++ [⟨newId, night, u, movie, []⟩] := by
      simp [handleSubmitMovie, hn] at ht
      exact ht.symm
    subst hteq
    simp [List.filter_append]

/-- Witness for C8: user 7 owns two submissions and is rejected; user 8 owns
none and gets a row inserted. -/
theorem handleSubmitMovie_quota_witness :
    handleSubmitMovie exNightFull 7 5 102 3 = none
    ∧ handleSubmitMovie exNightFull 8 5 102 3 =
        some (exNightFull ++ [⟨3, 5, 8, 102, []⟩]) :=
  ⟨(handleSubmitMovie_quota exNightFull 7 5 102 3).1 (by decide),
   ((handleSubmitMovie_quota exNightFull 8 5 102 3).2 (by decide)).1⟩

/-! ### C7 — ballot replacement -/

/-- C7 (amended): `handleSubmitVotes` deletes the user's existing votes for
the submissions in the submitted list — not for all of the night's
submissions — and then inserts exactly one vote per listed submission with
`rank = position + 1`, the dense sequence 1..k. -/
theorem handleSubmitVotes_spec :
    ∀ (votes : List VoteRow) (u : Int) (l : List Submission),
      (∀ v, v ∈ handleSubmitVotes votes u l ↔
        ((v ∈ votes ∧
            ¬(v.user_id = u ∧ v.submission_id ∈ l.map (fun s => s.submission_id)))
          ∨ v ∈ l.enum.map
              (fun p => (⟨p.2.submission_id, u, (p.1 : Int) + 1⟩ : VoteRow))))
      ∧ (l.enum.map (fun p => (⟨p.2.submission_id, u, (p.1 : Int) + 1⟩ : VoteRow))).map
          (fun v => v.rank) = (List.range l.length).map (fun (i : Nat) => (i : Int) + 1)
      ∧ (l.enum.map (fun p => (⟨p.2.submission_id, u, (p.1 : Int) + 1⟩ : VoteRow))).map
          (fun v => v.submission_id) = l.map (fun s => s.submission_id) := by
  intro votes u l
  refine ⟨fun v => ?_, ?_, ?_⟩
  · unfold handleSubmitVotes
    rw [List.mem_append, List.mem_filter]
    constructor
    · rintro (⟨hv, hp⟩ | hins)
      · refine Or.inl ⟨hv, ?_⟩
        rintro ⟨hu, hsid⟩
        rcases List.mem_map.1 hsid with ⟨s, hs, hss⟩
        simp [hu] at hp
        exact hp s hs hss
      · exact Or.inr hins
    · rintro (⟨hv, hp⟩ | hins)
      · refine Or.inl ⟨hv, ?_⟩
        simp only [Bool.not_eq_true', Bool.not_eq_true, Bool.and_eq_false_iff]
        by_cases hu : v.user_id = u
        · refine Or.inr ?_
          have : v.submission_id ∉ l.map (fun s => s.submission_id) :=
            fun hc => hp ⟨hu, hc⟩
          simpa [List.elem_iff] using this
        · exact Or.inl (by simpa using hu)
      · exact Or.inr hins
  · rw [← List.enum_map_fst l, List.map_map, List.map_map]
    rfl
  · conv_rhs => rw [← List.enum_map_snd l]
    rw [List.map_map, List.map_map]
    rfl

/-- C7 counterexample: the votes table holds user 7's vote for submission 2
(a candidate of the same night), but the submitted ordering lists only
submission 1; after replacement the old vote for submission 2 survives, so
not ALL of the user's ballots for the night's candidates were replaced. -/
theorem handleSubmitVotes_counterexample :
    handleSubmitVotes [⟨2, 7, 1⟩] 7 exListedOnly = [⟨2, 7, 1⟩, ⟨1, 7, 1⟩]
    ∧ (⟨2, 7, 1⟩ : VoteRow) ∈ handleSubmitVotes [⟨2, 7, 1⟩] 7 exListedOnly := by
  exact ⟨by decide, by decide⟩

/-! ### C1 — immediate strict majority -/

/-- C1: whenever some candidate's first-round first-place count strictly
exceeds half of the first-round total (`count > total / 2`, encoded as
`total < 2 * count` inside `hasMajority`), the tally returns on the first
round — the remaining list and the ballot store are the untouched inputs —
and the winner is the first candidate in the caller-supplied order whose
count strictly exceeds `total / 2`. -/
theorem tally_majority_first_round :
    ∀ subs : List Submission,
      (∃ s ∈ subs,
        hasMajority (firstRoundCounts subs) (firstRoundTotal subs) s = true) →
      calculateInstantRunoffWinnerFull subs =
        (subs.find? (hasMajority (firstRoundCounts subs) (firstRoundTotal subs)),
         votesBySubmission subs, subs)
      ∧ calculateInstantRunoffWinner subs =
          subs.find? (hasMajority (firstRoundCounts subs) (firstRoundTotal subs)) :=
  fun _ h => ⟨full_eq_of_majority h, calculate_eq_of_majority h⟩

/-- Witness for C1: candidate 1 of `exMajority` holds 2 of 3 first-place
votes, a strict majority. -/
theorem tally_majority_first_round_witness :
    (∃ s ∈ exMajority,
      hasMajority (firstRoundCounts exMajority) (firstRoundTotal exMajority) s = true)
    ∧ calculateInstantRunoffWinner exMajority =
        exMajority.find?
          (hasMajority (firstRoundCounts exMajority) (firstRoundTotal exMajority)) :=
  ⟨by decide, (tally_majority_first_round exMajority (by decide)).2⟩

/-! ### C5 — purity versus in-place mutation -/

/-- C5 (amended): the embedded tally is a pure function of its snapshot, so
calling it twice yields the same result; but the ballots it receives are
mutated in place during elimination rounds, so they are guaranteed unchanged
only when no elimination runs — the input is empty or a majority winner is
found on the first round. -/
theorem tally_no_mutation_without_elimination :
    ∀ subs : List Submission,
      (subs = [] ∨ ∃ s ∈ subs,
        hasMajority (firstRoundCounts subs) (firstRoundTotal subs) s = true) →
      (calculateInstantRunoffWinnerFull subs).2.1 = votesBySubmission subs := by
  intro subs h
  rcases h with rfl | h
  · rfl
  · rw [full_eq_of_majority h]

/-- Witness for C5 (amended) on the first-round-majority input. -/
theorem tally_no_mutation_without_elimination_witness :
    (calculateInstantRunoffWinnerFull exMajority).2.1 = votesBySubmission exMajority :=
  tally_no_mutation_without_elimination exMajority (Or.inr (by decide))

/-- C5 counterexample: on `exElim` the tally eliminates candidate 1 and
decrements the rank-2 vote of candidate 2 in place: after the call, the
ballots of submission 2 read through the store differ from the ballots that
were passed in, so the tally does mutate the ballots it receives. -/
theorem tally_mutates_counterexample :
    (calculateInstantRunoffWinnerFull exElim).2.1 2 ≠ votesBySubmission exElim 2 := by
  decide

/-! ### C2 — null outcomes -/

/-- C2: the tally returns null exactly when the candidate list is empty or
the loop eliminated every candidate without ever finding a majority (the
final remaining list is empty); in particular, a single candidate with zero
ballots is eliminated on its own round and the tally returns null. -/
theorem tally_null_iff :
    ∀ subs : List Submission,
      (calculateInstantRunoffWinner subs = none ↔
        (subs = [] ∨ (calculateInstantRunoffWinnerFull subs).2.2 = []))
      ∧ (∀ s : Submission, s.votes = [] → calculateInstantRunoffWinner [s] = none) := by
  intro subs
  constructor
  · rcases subs with _ | ⟨x, xs⟩
    · exact ⟨fun _ => Or.inl rfl, fun _ => rfl⟩
    · have hinv := runoffAux_inv (x :: xs).length (votesBySubmission (x :: xs))
        (x :: xs) (le_refl _)
      have hfull : calculateInstantRunoffWinnerFull (x :: xs) =
          runoffAux (x :: xs).length (votesBySubmission (x :: xs)) (x :: xs) := by
        rw [calculateInstantRunoffWinnerFull, if_neg]
        simp
      rcases hRe : runoffAux (x :: xs).length (votesBySubmission (x :: xs)) (x :: xs)
        with ⟨w1, st, rem⟩
      rw [hRe] at hinv hfull
      rcases w1 with _ | w
      · have hrem : rem = [] := by simpa using hinv.1 rfl
        subst hrem
        have hc : calculateInstantRunoffWinner (x :: xs) = none := by
          simp [calculateInstantRunoffWinner, hfull]
        exact ⟨fun _ => Or.inr (by rw [hfull]), fun _ => hc⟩
      · have hw : w ∈ rem := by simpa using (hinv.2 w rfl).2
        have hc : calculateInstantRunoffWinner (x :: xs) = some w := by
          simp [calculateInstantRunoffWinner, hfull]
        constructor
        · intro hnone
          rw [hc] at hnone
          cases hnone
        · rintro (h1 | h1)
          · exact absurd h1 (List.cons_ne_nil x xs)
          · rw [hfull] at h1
            simp only at h1
            rw [h1] at hw
            exact absurd hw (List.not_mem_nil w)
  · intro s hs
    simp [calculateInstantRunoffWinner, calculateInstantRunoffWinnerFull, runoffAux,
      scanWinner, roundLoser, voteCountsList, mapSet, mapGet, totalVotes,
      countFirstChoice, votesBySubmission, hasMajority, listMin, nextStore, rerank, hs]

/-- Witness for C2: a single candidate with zero ballots tallies to null. -/
theorem tally_null_iff_witness :
    (⟨1, 5, 1, 100, []⟩ : Submission).votes = []
    ∧ calculateInstantRunoffWinner [⟨1, 5, 1, 100, []⟩] = none :=
  ⟨rfl, (tally_null_iff [⟨1, 5, 1, 100, []⟩]).2 ⟨1, 5, 1, 100, []⟩ rfl⟩

/-! ### C10 — winners come from the input; the fallback is dead -/

/-- C10: the tally's result is either null or one of the input candidates,
and it always equals the loop's winner component: the fallback
`remainingSubmissions[0]` never supplies the result, because the loop only
exits with a winner or with an empty remaining list. -/
theorem tally_winner_mem :
    ∀ subs : List Submission,
      (∀ s, calculateInstantRunoffWinner subs = some s → s ∈ subs)
      ∧ calculateInstantRunoffWinner subs = (calculateInstantRunoffWinnerFull subs).1 := by
  intro subs
  rcases subs with _ | ⟨x, xs⟩
  · refine ⟨fun s hs => ?_, rfl⟩
    simp [calculateInstantRunoffWinner, calculateInstantRunoffWinnerFull] at hs
  · have hinv := runoffAux_inv (x :: xs).length (votesBySubmission (x :: xs))
      (x :: xs) (le_refl _)
    have hfull : calculateInstantRunoffWinnerFull (x :: xs) =
        runoffAux (x :: xs).length (votesBySubmission (x :: xs)) (x :: xs) := by
      rw [calculateInstantRunoffWinnerFull, if_neg]
      simp
    rcases hRe : runoffAux (x :: xs).length (votesBySubmission (x :: xs)) (x :: xs)
      with ⟨w1, st, rem⟩
    rw [hRe] at hinv hfull
    rcases w1 with _ | w
    · have hrem : rem = [] := by simpa using hinv.1 rfl
      subst hrem
      have hc : calculateInstantRunoffWinner (x :: xs) = none := by
        simp [calculateInstantRunoffWinner, hfull]
      refine ⟨fun s hs => ?_, by rw [hc, hfull]⟩
      rw [hc] at hs
      cases hs
    · have hmem : w ∈ x :: xs := (hinv.2 w rfl).1
      have hc : calculateInstantRunoffWinner (x :: xs) = some w := by
        simp [calculateInstantRunoffWinner, hfull]
      refine ⟨fun s hs => ?_, by rw [hc, hfull]⟩
      rw [hc] at hs
      cases hs
      exact hmem

/-- Witness for C10: on `exSingle` the tally returns the sole candidate,
which is a member of the input list. -/
theorem tally_winner_mem_witness :
    calculateInstantRunoffWinner exSingle = some ⟨1, 5, 1, 100, [⟨1, 1, 1⟩]⟩
    ∧ (⟨1, 5, 1, 100, [⟨1, 1, 1⟩]⟩ : Submission) ∈ exSingle :=
  ⟨by decide, (tally_winner_mem exSingle).1 ⟨1, 5, 1, 100, [⟨1, 1, 1⟩]⟩ (by decide)⟩

/-! ### C6 — termination in at most one round per candidate -/

/-- C6: the tally terminates on every input — giving the loop any fuel
beyond the number of candidates changes nothing, because every round that
does not produce a winner removes the eliminated candidate from the
remaining list; with distinct submission ids, exactly one candidate is
removed per such round. -/
theorem tally_terminates :
    (∀ (subs : List Submission) (k : Nat),
        runoffAux (subs.length + k) (votesBySubmission subs) subs =
          calculateInstantRunoffWinnerFull subs)
    ∧ (∀ (store : Int → List VoteRow) (r : List Submission) (e : Int × Nat),
        (r.map (fun s => s.submission_id)).Nodup →
        roundLoser store r = some e →
        (r.filter (fun s => decide (s.submission_id ≠ e.1))).length + 1 = r.length) := by
  constructor
  · intro subs k
    rcases subs with _ | ⟨x, xs⟩
    · rw [runoffAux_nil]
      rfl
    · have hfull : calculateInstantRunoffWinnerFull (x :: xs) =
          runoffAux (x :: xs).length (votesBySubmission (x :: xs)) (x :: xs) := by
        rw [calculateInstantRunoffWinnerFull, if_neg]
        simp
      rw [hfull]
      exact runoffAux_fuel_irrel _ _ _ _ (by omega) (le_refl _)
  · intro store r e hnd he
    rcases roundLoser_shape he with ⟨s, hs, rfl⟩
    exact filter_ne_length_nodup r _ hnd (List.mem_map.2 ⟨s, hs, rfl⟩)

/-- Witness for C6: on `exLoser` the round loser is submission 1 and the
round removes exactly one candidate. -/
theorem tally_terminates_witness :
    (exLoser.filter (fun s => decide (s.submission_id ≠ ((1 : Int), (0 : Nat)).1))).length + 1 =
      exLoser.length :=
  tally_terminates.2 (votesBySubmission exLoser) exLoser (1, 0) (by decide) (by decide)

/-! ### C4 — the eliminated candidate is the first minimum -/

/-- C4: in a round with no majority winner, the candidate removed is exactly
the first one, in the iteration order established by the counting pass
(which, for distinct submission ids, is the current remaining order), whose
first-place count equals the minimum count; in a tie at the minimum the
earlier candidate is eliminated. -/
theorem elimination_picks_first_min :
    ∀ (store : Int → List VoteRow) (r : List Submission),
      r ≠ [] → (r.map (fun s => s.submission_id)).Nodup →
      scanWinner store r = none →
      ∃ loser,
        r.find? (fun s => countFirstChoice store s.submission_id ==
            listMin (r.map (fun s => countFirstChoice store s.submission_id))) = some loser
        ∧ roundLoser store r =
            some (loser.submission_id, countFirstChoice store loser.submission_id)
        ∧ ∀ fuel, runoffAux (fuel + 1) store r =
            runoffAux fuel
              (nextStore store r
                (loser.submission_id, countFirstChoice store loser.submission_id))
              (r.filter (fun s => decide (s.submission_id ≠ loser.submission_id))) := by
  intro store r hne hnd hsw
  rcases roundLoser_isSome store hne with ⟨e, he⟩
  have heq := @roundLoser_eq_of_nodup store r hnd
  rw [he] at heq
  rcases hf : r.find? (fun s => countFirstChoice store s.submission_id ==
      listMin (r.map (fun s => countFirstChoice store s.submission_id))) with _ | loser
  · rw [hf] at heq
    simp at heq
  · rw [hf] at heq
    simp only [Option.map_some', Option.some.injEq] at heq
    refine ⟨loser, hf, ?_, fun fuel => ?_⟩
    · rw [he, heq]
    · rcases r with _ | ⟨x, xs⟩
      · exact absurd rfl hne
      · rw [runoffAux_cons, hsw, he, heq]

/-- Witness for C4 on `exTie`: candidates 1 and 2 tie at the minimum count 2
and the earlier one (submission 1) is the one eliminated. -/
theorem elimination_picks_first_min_witness :
    (∃ loser,
      exTie.find? (fun s => countFirstChoice (votesBySubmission exTie) s.submission_id ==
          listMin (exTie.map
            (fun s => countFirstChoice (votesBySubmission exTie) s.submission_id))) =
        some loser
      ∧ roundLoser (votesBySubmission exTie) exTie =
          some (loser.submission_id,
            countFirstChoice (votesBySubmission exTie) loser.submission_id)
      ∧ ∀ fuel, runoffAux (fuel + 1) (votesBySubmission exTie) exTie =
          runoffAux fuel
            (nextStore (votesBySubmission exTie) exTie
              (loser.submission_id,
               countFirstChoice (votesBySubmission exTie) loser.submission_id))
            (exTie.filter (fun s => decide (s.submission_id ≠ loser.submission_id))))
    ∧ exTie.find? (fun s => countFirstChoice (votesBySubmission exTie) s.submission_id ==
        listMin (exTie.map
          (fun s => countFirstChoice (votesBySubmission exTie) s.submission_id))) =
      some ⟨1, 5, 1, 100, [⟨1, 1, 1⟩, ⟨1, 2, 1⟩]⟩ :=
  ⟨elimination_picks_first_min (votesBySubmission exTie) exTie
      (by decide) (by decide) (by decide),
   by decide⟩

/-! ### C3 — the rank-collapse pass -/

/-- C3 (amended): in an elimination round whose losing entry has a nonzero
submission id, the loop continues with the reranked store, in which — across
all candidates, eliminated ones included — every ballot whose rank strictly
exceeds the eliminated candidate's first-place count of that round is
decremented by 1 and every other ballot is unchanged; the threshold really
is the eliminated entry's count.  (When the losing id is 0, the JS-falsy
guard skips the pass entirely — see the counterexample.) -/
theorem rerank_on_elimination :
    ∀ (fuel : Nat) (store : Int → List VoteRow) (r : List Submission) (e : Int × Nat),
      scanWinner store r = none → roundLoser store r = some e → e.1 ≠ 0 →
      runoffAux (fuel + 1) store r =
        runoffAux fuel (rerank store (countFirstChoice store e.1))
          (r.filter (fun s => decide (s.submission_id ≠ e.1)))
      ∧ e.2 = countFirstChoice store e.1
      ∧ ∀ (id : Int) (i : Nat),
          (rerank store (countFirstChoice store e.1) id)[i]? =
            ((store id)[i]?).map
              (fun v => if (countFirstChoice store e.1 : Int) < v.rank then
                  { v with rank := v.rank - 1 } else v) := by
  intro fuel store r e hsw he h0
  have hmem : e ∈ voteCountsList store r := List.mem_of_find?_eq_some he
  have hget : mapGet (voteCountsList store r) e.1 = countFirstChoice store e.1 :=
    mapGet_of_mem_unique_value hmem
  have hval : e.2 = countFirstChoice store e.1 := by
    rcases voteCountsList_mem hmem with ⟨s, _, rfl⟩
    rfl
  refine ⟨?_, hval, fun id i => ?_⟩
  · rcases r with _ | ⟨x, xs⟩
    · simp [roundLoser, voteCountsList] at he
    · have hns : nextStore store (x :: xs) e =
          rerank store (countFirstChoice store e.1) := by
        rw [nextStore, if_pos h0, hget]
      rw [runoffAux_cons, hsw, he]
      show runoffAux fuel (nextStore store (x :: xs) e)
          ((x :: xs).filter (fun s => decide (s.submission_id ≠ e.1))) =
        runoffAux fuel (rerank store (countFirstChoice store e.1))
          ((x :: xs).filter (fun s => decide (s.submission_id ≠ e.1)))
      rw [hns]
  · exact List.getElem?_map _ _ _

/-- Witness for C3 (amended) on `exElim`: the losing entry is `(1, 1)` with
nonzero id, and the loop continues with the reranked store. -/
theorem rerank_on_elimination_witness :
    runoffAux 2 (votesBySubmission exElim) exElim =
      runoffAux 1
        (rerank (votesBySubmission exElim)
          (countFirstChoice (votesBySubmission exElim) 1))
        (exElim.filter (fun s => decide (s.submission_id ≠ 1))) :=
  (rerank_on_elimination 1 (votesBySubmission exElim) exElim (1, 1)
    (by decide) (by decide) (by decide)).1

/-- C3 counterexample: on `exZeroId` the first round eliminates submission 0
(first-place count 0), yet the rank-1 ballot of submission 1 — whose rank 1
strictly exceeds that count — is NOT decremented: the ballots are unchanged
after the round, because the JS guard `if (losingSubmissionId)` is falsy for
the id 0.  The claim requires that ballot to be decremented in every
elimination round. -/
theorem rerank_skipped_counterexample :
    roundLoser (votesBySubmission exZeroId) exZeroId = some (0, 0)
    ∧ countFirstChoice (votesBySubmission exZeroId) 0 = 0
    ∧ (runoffAux 1 (votesBySubmission exZeroId) exZeroId).2.2 =
        [⟨1, 5, 2, 200, [⟨1, 10, 1⟩]⟩, ⟨2, 5, 3, 300, [⟨2, 11, 1⟩]⟩]
    ∧ (runoffAux 1 (votesBySubmission exZeroId) exZeroId).2.1 1 = [⟨1, 10, 1⟩] :=
  ⟨by decide, by decide, by decide, by decide⟩
